/-
Verification of the news-pipeline core of `src/app.py` (fetch → dedupe →
aggregate → summarize, with incremental progress snapshots).

Shallow embedding conventions:
- A `NewsItem` is the dict `{"title": ..., "source": ..., "published": ...}`
  built by `NewsFetcher.fetch_google_rss`; `published` (a `datetime`) is
  modelled as an `Int` timestamp, which carries the same total order.
- Python's `str.lower` / `str.isalnum` are modelled per-character by
  `Char.toLower` / `Char.isAlphanum`; `str.strip` by `String.trim`.
  Wall-clock prefixes that `process_all.log` puts in front of every log
  line are omitted (they are not modelled), keeping only the message text.
- `feedparser` / network / `dateutil` are external: `fetch_google_rss` is
  modelled as a function of the provider's entry list and of a date-parse
  function `parse : String → Option Int` standing for `dateutil.parser.parse`
  (`none` = the parser raises); the Python list comprehension's semantics
  (first raised exception aborts the whole call) is an `Except`-valued
  left-to-right traversal (`mapParse`).
- The Gemini stream is modelled by `GenStream`: the texts of the chunks the
  backend delivers, plus an optional exception raised after them (`chunks = []`
  with `err = some e` models a failure before any chunk, e.g. in
  `genai.GenerativeModel` or `generate_content`).
- `process_all` is a Python generator; its run is modelled as the finite
  list of yielded snapshots (`Snap`, one per `yield`, with `none` standing
  for `gr.update()`, i.e. "leave unchanged") plus a trace: which topics were
  passed to `fetch_google_rss`, the dict passed to `summarize` (if reached),
  and the uncaught exception that aborted the generator (if any) — in the
  app an uncaught exception ends the run in the failed state.
-/
import Mathlib

structure NewsItem where
  title : String
  source : String
  published : Int
deriving Repr, DecidableEq

structure RawEntry where
  title : String
  source : Option String
  published : String
deriving Repr, DecidableEq

/-- A row of `master_table`: `{"Topic": ..., "Source": ..., "Title": ...}`. -/
structure AggRow where
  topic : String
  source : String
  title : String
deriving Repr, DecidableEq

/-- `"".join(e for e in title.lower() if e.isalnum())[:40]` -/
def dedupKey (title : String) : String :=
  String.mk (((title.toList.map Char.toLower).filter Char.isAlphanum).take 40)

/-- The `seen`/`unique` loop of `NewsFetcher.deduplicate`, with the `seen`
set modelled as the list of slugs added so far. -/
def dedupFirstPass : List NewsItem → List String → List NewsItem
  | [], _ => []
  | itm :: rest, seen =>
    let slug := dedupKey itm.title
    if slug ∈ seen then dedupFirstPass rest seen
    else itm :: dedupFirstPass rest (slug :: seen)

/-- The ordering used by `unique.sort(key=lambda x: x['published'], reverse=True)`:
`a` comes no later than `b` when `a` is at least as recent. -/
def recencyGE (a b : NewsItem) : Prop := b.published ≤ a.published

instance : DecidableRel recencyGE := fun a b => Int.decLe b.published a.published

instance : IsTotal NewsItem recencyGE := ⟨fun a b => Int.le_total b.published a.published⟩

instance : IsTrans NewsItem recencyGE := ⟨fun _ _ _ h1 h2 => le_trans h2 h1⟩

/-- `unique.sort(key=lambda x: x['published'], reverse=True)`: Python's sort
is stable, and with `reverse=True` ties keep input order; a stable sort's
output is uniquely determined by sortedness plus stability, so the (stable)
insertion sort under `recencyGE` is the same function. -/
def sortByPublishedDesc (l : List NewsItem) : List NewsItem :=
  l.insertionSort recencyGE

/-- `NewsFetcher.deduplicate` -/
def deduplicate (items : List NewsItem) : List NewsItem :=
  sortByPublishedDesc (dedupFirstPass items [])

/-- Spec-side definition (refinement target), following the spec's words:
"Items with an already-seen key are dropped; the first-seen instance (by
input order) wins" — keep each item and drop every later item whose key
was already seen. -/
def firstSeenSpec : List NewsItem → List NewsItem
  | [] => []
  | itm :: rest =>
    itm :: (firstSeenSpec rest).filter (fun x => !(dedupKey x.title == dedupKey itm.title))

/-- One entry of the comprehension in `fetch_google_rss`:
`{"title": e.title, "source": e.source.title if 'source' in e else "Google News",
  "published": parser.parse(e.published)}`; a raised parse exception is
`Except.error` carrying the offending date string. -/
def parseEntry (parse : String → Option Int) (e : RawEntry) : Except String NewsItem :=
  match parse e.published with
  | some ts => .ok { title := e.title, source := e.source.getD "Google News", published := ts }
  | none => .error e.published

/-- The list comprehension of `fetch_google_rss`: entries are converted
left to right, and the first raised exception aborts the whole call. -/
def mapParse (parse : String → Option Int) : List RawEntry → Except String (List NewsItem)
  | [] => .ok []
  | e :: es =>
    match parseEntry parse e with
    | .error msg => .error msg
    | .ok itm =>
      match mapParse parse es with
      | .error msg => .error msg
      | .ok rest => .ok (itm :: rest)

/-- `NewsFetcher.fetch_google_rss`, as a function of the provider's parsed
feed entries (`feed.entries`) and the date parser: the comprehension runs
over `feed.entries[:8]`. -/
def fetch_google_rss (parse : String → Option Int) (entries : List RawEntry) :
    Except String (List NewsItem) :=
  mapParse parse (entries.take 8)

/-- The chunk stream `model.generate_content(prompt, stream=True)` delivers:
the chunk texts received, then optionally a raised exception. -/
structure GenStream where
  chunks : List String
  err : Option String
deriving Repr, DecidableEq

/-- The accumulation loop of `GeminiAgent.summarize`:
`if chunk.text: accumulated += chunk.text; yield accumulated`
(a falsy `chunk.text` is modelled as `""`). -/
def accumChunks (acc : String) : List String → List String
  | [] => []
  | c :: cs =>
    if c = "" then accumChunks acc cs
    else (acc ++ c) :: accumChunks (acc ++ c) cs

/-- `GeminiAgent.summarize`, as the list of texts the generator yields.
The dict `all_topics_data` is an insertion-ordered association list. -/
def summarize (s : GenStream) (allData : List (String × List NewsItem)) : List String :=
  if allData.isEmpty then ["No data gathered."]
  else
    accumChunks "" s.chunks ++
      (match s.err with
       | none => []
       | some e => ["❌ Error: " ++ e])

/-- One yielded tuple of `process_all`; `none` models `gr.update()`
("leave unchanged"). The table is always yielded concretely in the source
(`pd.DataFrame()` or `df`), so it is a plain list. -/
structure Snap where
  summary : Option String
  log : List String
  table : List AggRow
  tab : Option Nat
deriving Repr, DecidableEq

/-- The external effects of one run: the topic→result fetch outcome
(network + feed parse, i.e. what `fetch_google_rss` returns or raises for
each topic in the run's region) and the Gemini stream. -/
structure Env where
  fetch : String → Except String (List NewsItem)
  gen : GenStream

/-- `all_data[topic] = clean` on a Python (insertion-ordered) dict. -/
def dictInsert (d : List (String × List NewsItem)) (k : String) (v : List NewsItem) :
    List (String × List NewsItem) :=
  if d.any (fun p => p.1 == k) then d.map (fun p => if p.1 == k then (k, v) else p)
  else d ++ [(k, v)]

/-- Python's `str.strip()`: drop whitespace from both ends. -/
def pyStrip (s : String) : String :=
  String.mk (((s.toList.dropWhile Char.isWhitespace).reverse.dropWhile
    Char.isWhitespace).reverse)

/-- `valid_topics = [t for t in [t1, t2, t3] if t and t.strip()]` —
`t and t.strip()` is truthy exactly when `t.strip()` is non-empty; note the
kept element is the original `t`, not `t.strip()`. -/
def validTopics (t1 t2 t3 : String) : List String :=
  [t1, t2, t3].filter (fun t => pyStrip t != "")

/-- The rows topic `t` contributes to `master_table` for a deduplicated
result list. -/
def mkRow (t : String) (itm : NewsItem) : AggRow :=
  { topic := t, source := itm.source, title := itm.title }

structure LoopState where
  snaps : List Snap
  logs : List String
  allData : List (String × List NewsItem)
  table : List AggRow
  fetched : List String
  aborted : Option String
deriving Repr, DecidableEq

/-- The `for idx, topic in enumerate(valid_topics)` loop of `process_all`.
Before each topic's fetch a snapshot is yielded whose table is a fresh
`pd.DataFrame()` (empty); then `fetch_google_rss` runs — an exception there
escapes the generator (the run aborts; nothing further is yielded). -/
def fetchLoop (env : Env) : List String → LoopState → LoopState
  | [], st => st
  | topic :: rest, st =>
    let logs1 := st.logs ++ ["🔍 Fetching RSS for: " ++ topic]
    let st1 : LoopState :=
      { st with
        snaps := st.snaps ++ [{ summary := none, log := logs1, table := [], tab := none }]
        logs := logs1
        fetched := st.fetched ++ [topic] }
    match env.fetch topic with
    | .error e => { st1 with aborted := some e }
    | .ok raw =>
      let clean := deduplicate raw
      fetchLoop env rest
        { st1 with
          allData := dictInsert st1.allData topic clean
          table := st1.table ++ clean.map (mkRow topic) }

/-- The `for summary in summary_stream: yield summary, log("🧠 ..."), df, gr.update()`
loop: returns the yielded snapshots and the log list after the loop. -/
def summaryYields (df : List AggRow) : List String → List String → List Snap × List String
  | logs0, [] => ([], logs0)
  | logs0, s :: rest =>
    let logs1 := logs0 ++ ["🧠 AI is thinking..."]
    let tl := summaryYields df logs1 rest
    ({ summary := some s, log := logs1, table := df, tab := none } :: tl.1, tl.2)

/-- The log list right after the first success-path yield of `process_all`. -/
def initLogs (valid : List String) : List String :=
  ["Starting analysis for " ++ toString valid.length ++ " topics..."]

/-- The generator state after the "Initializing scan" yield, before the
topic loop. -/
def initState (valid : List String) : LoopState :=
  { snaps := [{ summary := some "📡 Initializing scan...", log := initLogs valid
                table := [], tab := some 1 }]
    logs := initLogs valid
    allData := [], table := [], fetched := [], aborted := none }

/-- Result of one `process_all` run: yielded snapshots plus the trace of
external calls and the uncaught exception, if any, that ended the run in
the failed state. -/
structure RunResult where
  snaps : List Snap
  fetched : List String
  summarized : Option (List (String × List NewsItem))
  aborted : Option String
deriving Repr, DecidableEq

/-- `process_all(t1, t2, t3, country)` (the region only parameterizes the
fetch URL and is absorbed into `env.fetch`). -/
def process_all (env : Env) (t1 t2 t3 : String) : RunResult :=
  let valid := validTopics t1 t2 t3
  if valid.isEmpty then
    { snaps := [{ summary := some "⚠️ Please enter at least one topic."
                  log := ["Aborted: No topics entered."]
                  table := []
                  tab := some 0 }]
      fetched := [], summarized := none, aborted := none }
  else
    let st := fetchLoop env valid (initState valid)
    match st.aborted with
    | some e =>
      { snaps := st.snaps, fetched := st.fetched, summarized := none, aborted := some e }
    | none =>
      let df := st.table
      let texts := summarize env.gen st.allData
      let sy := summaryYields df st.logs texts
      { snaps := st.snaps ++ sy.1 ++
          [{ summary := none
             log := sy.2 ++ ["✅ Success. Intelligence briefing ready."]
             table := df
             tab := none }]
        fetched := st.fetched
        summarized := some st.allData
        aborted := none }

/-- The items a topic's fetch produced (meaningful when the fetch
succeeded). -/
def fetchItems (env : Env) (t : String) : List NewsItem :=
  match env.fetch t with
  | .ok l => l
  | .error _ => []

/-- The pure effect trace of the fetching loop: the topics for which
`fetch_google_rss` is called, in order, and the first uncaught fetch
exception (the loop stops at the first failing topic). -/
def fetchTrace (env : Env) : List String → List String × Option String
  | [] => ([], none)
  | topic :: rest =>
    match env.fetch topic with
    | .error e => ([topic], some e)
    | .ok _ =>
      let tr := fetchTrace env rest
      (topic :: tr.1, tr.2)

/-- The rows `master_table` accumulates over a list of topics when every
fetch succeeds: per topic, its deduplicated items, flattened in topic
order. -/
def aggregateRows (env : Env) (topics : List String) : List AggRow :=
  topics.flatMap (fun t => (deduplicate (fetchItems env t)).map (mkRow t))

/-- A concrete news item used by the concrete runs below. -/
def itemA : NewsItem := { title := "Alpha", source := "SrcA", published := 7 }

/-- A concrete environment whose every fetch succeeds with one item. -/
def envOk : Env :=
  { fetch := fun _ => .ok [itemA], gen := { chunks := ["s"], err := none } }

/-- A concrete environment whose every fetch fails. -/
def envBad : Env :=
  { fetch := fun _ => .error "unreachable", gen := { chunks := ["s"], err := none } }

/-! ### Deduplication lemmas -/

theorem dedupFirstPass_eq_filter_firstSeenSpec (items : List NewsItem) :
    ∀ seen : List String,
      dedupFirstPass items seen =
        (firstSeenSpec items).filter (fun x => decide (dedupKey x.title ∉ seen)) := by
  induction items with
  | nil => intro seen; rfl
  | cons itm rest ih =>
    intro seen
    by_cases h : dedupKey itm.title ∈ seen
    · have hL : dedupFirstPass (itm :: rest) seen = dedupFirstPass rest seen := by
        simp [dedupFirstPass, h]
      rw [hL, ih seen, firstSeenSpec]
      rw [List.filter_cons_of_neg (by simp [h]), List.filter_filter]
      apply List.filter_congr
      intro x _
      by_cases hk : dedupKey x.title = dedupKey itm.title
      · simp [hk, h]
      · simp [hk]
    · have hL : dedupFirstPass (itm :: rest) seen
          = itm :: dedupFirstPass rest (dedupKey itm.title :: seen) := by
        simp [dedupFirstPass, h]
      rw [hL, ih (dedupKey itm.title :: seen), firstSeenSpec]
      rw [List.filter_cons_of_pos (by simp [h]), List.filter_filter]
      congr 1
      apply List.filter_congr
      intro x _
      by_cases hk : dedupKey x.title = dedupKey itm.title
      · simp [hk]
      · by_cases hs : dedupKey x.title ∈ seen
        · simp [hk, hs]
        · simp [hk, hs]

theorem dedupFirstPass_nil_seen (items : List NewsItem) :
    dedupFirstPass items [] = firstSeenSpec items := by
  rw [dedupFirstPass_eq_filter_firstSeenSpec]
  simp

theorem dedupFirstPass_key_not_seen (items : List NewsItem) :
    ∀ (seen : List String) (x : NewsItem),
      x ∈ dedupFirstPass items seen → dedupKey x.title ∉ seen := by
  induction items with
  | nil => intro seen x hx; simp [dedupFirstPass] at hx
  | cons itm rest ih =>
    intro seen x hx
    by_cases h : dedupKey itm.title ∈ seen
    · rw [show dedupFirstPass (itm :: rest) seen = dedupFirstPass rest seen from by
        simp [dedupFirstPass, h]] at hx
      exact ih seen x hx
    · rw [show dedupFirstPass (itm :: rest) seen
          = itm :: dedupFirstPass rest (dedupKey itm.title :: seen) from by
        simp [dedupFirstPass, h]] at hx
      rcases List.mem_cons.mp hx with rfl | hx
      · exact h
      · intro hmem
        exact ih _ x hx (List.mem_cons_of_mem _ hmem)

theorem dedupFirstPass_pairwise_keys (items : List NewsItem) :
    ∀ seen : List String,
      (dedupFirstPass items seen).Pairwise
        (fun a b => dedupKey a.title ≠ dedupKey b.title) := by
  induction items with
  | nil => intro seen; simp [dedupFirstPass]
  | cons itm rest ih =>
    intro seen
    by_cases h : dedupKey itm.title ∈ seen
    · rw [show dedupFirstPass (itm :: rest) seen = dedupFirstPass rest seen from by
        simp [dedupFirstPass, h]]
      exact ih seen
    · rw [show dedupFirstPass (itm :: rest) seen
          = itm :: dedupFirstPass rest (dedupKey itm.title :: seen) from by
        simp [dedupFirstPass, h]]
      refine List.Pairwise.cons ?_ (ih _)
      intro y hy heq
      exact dedupFirstPass_key_not_seen rest _ y hy (heq ▸ List.mem_cons_self _ _)

theorem dedupFirstPass_of_pairwise (l : List NewsItem) :
    ∀ seen : List String,
      l.Pairwise (fun a b => dedupKey a.title ≠ dedupKey b.title) →
      (∀ x ∈ l, dedupKey x.title ∉ seen) →
      dedupFirstPass l seen = l := by
  induction l with
  | nil => intro seen _ _; rfl
  | cons itm rest ih =>
    intro seen hp hs
    have h : dedupKey itm.title ∉ seen := hs itm (List.mem_cons_self _ _)
    rw [show dedupFirstPass (itm :: rest) seen
        = itm :: dedupFirstPass rest (dedupKey itm.title :: seen) from by
      simp [dedupFirstPass, h]]
    congr 1
    apply ih _ hp.of_cons
    intro x hx
    rw [List.mem_cons]
    rintro (heq | hmem)
    · exact List.rel_of_pairwise_cons hp hx heq.symm
    · exact hs x (List.mem_cons_of_mem _ hx) hmem

theorem deduplicate_pairwise_keys (items : List NewsItem) :
    (deduplicate items).Pairwise (fun a b => dedupKey a.title ≠ dedupKey b.title) := by
  have hperm : List.Perm (deduplicate items) (dedupFirstPass items []) :=
    List.perm_insertionSort recencyGE (dedupFirstPass items [])
  exact (hperm.pairwise_iff (fun h => Ne.symm h)).mpr
    (dedupFirstPass_pairwise_keys items [])

theorem deduplicate_sorted (items : List NewsItem) :
    (deduplicate items).Pairwise recencyGE :=
  List.sorted_insertionSort recencyGE (dedupFirstPass items [])

/-- C1: `deduplicate` returns a sequence in which no two items share the
deduplication key (title lowercased, alphanumeric-only, truncated to 40
characters); among items sharing a key the first in input order is kept
(the output is a permutation of the spec-side `firstSeenSpec`); and the
result is sorted by `published` descending, items of equal timestamp
keeping their relative input order (stability). -/
theorem deduplicate_correct (items : List NewsItem) :
    (deduplicate items).Pairwise (fun a b => dedupKey a.title ≠ dedupKey b.title)
    ∧ List.Perm (deduplicate items) (firstSeenSpec items)
    ∧ (deduplicate items).Pairwise (fun a b => b.published ≤ a.published)
    ∧ (∀ a b : NewsItem, [a, b].Sublist (firstSeenSpec items) →
        a.published = b.published → [a, b].Sublist (deduplicate items)) := by
  refine ⟨deduplicate_pairwise_keys items, ?_, ?_, ?_⟩
  · rw [← dedupFirstPass_nil_seen]
    exact List.perm_insertionSort recencyGE (dedupFirstPass items [])
  · exact deduplicate_sorted items
  · intro a b hsub heq
    rw [← dedupFirstPass_nil_seen] at hsub
    exact List.pair_sublist_insertionSort (by simp [recencyGE, heq]) hsub

/-- Witness for C1 at a concrete input: two distinct-key items with equal
timestamps stay in input order in the deduplicated output. -/
theorem deduplicate_correct_witness :
    [({ title := "Alpha", source := "s1", published := 5 } : NewsItem),
     { title := "Beta", source := "s2", published := 5 }].Sublist
      (deduplicate [{ title := "Alpha", source := "s1", published := 5 },
                    { title := "Beta", source := "s2", published := 5 }]) :=
  (deduplicate_correct
      [{ title := "Alpha", source := "s1", published := 5 },
       { title := "Beta", source := "s2", published := 5 }]).2.2.2
    _ _ (by decide) (by decide)

/-- C10: `deduplicate` is idempotent — applied to its own output it returns
that output unchanged. -/
theorem deduplicate_idempotent (items : List NewsItem) :
    deduplicate (deduplicate items) = deduplicate items := by
  show sortByPublishedDesc (dedupFirstPass (deduplicate items) []) = deduplicate items
  rw [dedupFirstPass_of_pairwise _ [] (deduplicate_pairwise_keys items) (by simp)]
  exact List.Sorted.insertionSort_eq (deduplicate_sorted items)

/-! ### Fetch lemmas (C3, C7) -/

theorem mapParse_ok_length (parse : String → Option Int) :
    ∀ (l : List RawEntry) (res : List NewsItem),
      mapParse parse l = .ok res → res.length = l.length := by
  intro l
  induction l with
  | nil => intro res h; cases h; rfl
  | cons e es ih =>
    intro res h
    unfold mapParse at h
    cases hp : parseEntry parse e with
    | error msg => rw [hp] at h; cases h
    | ok itm =>
      rw [hp] at h
      cases hm : mapParse parse es with
      | error msg => rw [hm] at h; cases h
      | ok rest =>
        rw [hm] at h
        cases h
        simp [ih rest hm]

theorem mapParse_error_of_bad (parse : String → Option Int) :
    ∀ l : List RawEntry, (∃ e ∈ l, parse e.published = none) →
      ∃ msg, mapParse parse l = .error msg := by
  intro l
  induction l with
  | nil => rintro ⟨e, he, -⟩; cases he
  | cons e es ih =>
    rintro ⟨x, hx, hbad⟩
    rcases List.mem_cons.mp hx with rfl | hx
    · refine ⟨x.published, ?_⟩
      unfold mapParse parseEntry
      rw [hbad]
    · by_cases hp : ∃ itm, parseEntry parse e = .ok itm
      · obtain ⟨itm, hitm⟩ := hp
        obtain ⟨msg, hmsg⟩ := ih ⟨x, hx, hbad⟩
        refine ⟨msg, ?_⟩
        unfold mapParse
        rw [hitm, hmsg]
      · refine ⟨e.published, ?_⟩
        unfold mapParse
        have : parseEntry parse e = .error e.published := by
          unfold parseEntry
          cases hpe : parse e.published with
          | none => rfl
          | some ts => exact absurd ⟨_, by unfold parseEntry; rw [hpe]⟩ hp
        rw [this]

theorem mapParse_ok_of_good (parse : String → Option Int) :
    ∀ l : List RawEntry, (∀ e ∈ l, (parse e.published).isSome) →
      ∃ res, mapParse parse l = .ok res ∧ res.length = l.length := by
  intro l
  induction l with
  | nil => intro _; exact ⟨[], rfl, rfl⟩
  | cons e es ih =>
    intro h
    obtain ⟨ts, hts⟩ := Option.isSome_iff_exists.mp (h e (List.mem_cons_self _ _))
    obtain ⟨res, hres, hlen⟩ := ih (fun x hx => h x (List.mem_cons_of_mem _ hx))
    refine ⟨{ title := e.title, source := e.source.getD "Google News", published := ts } :: res,
      ?_, by simp [hlen]⟩
    unfold mapParse parseEntry
    rw [hts, hres]

/-- C7: a single `fetch_google_rss` call returns at most 8 entries,
whatever the provider response and date parser. -/
theorem fetch_google_rss_cap8 (parse : String → Option Int) (entries : List RawEntry)
    (l : List NewsItem) (h : fetch_google_rss parse entries = .ok l) :
    l.length ≤ 8 := by
  rw [mapParse_ok_length parse (entries.take 8) l h]
  simp

/-- Witness for C7 at a concrete input. -/
theorem fetch_google_rss_cap8_witness :
    ([{ title := "T", source := "Google News", published := 0 }] : List NewsItem).length ≤ 8 :=
  fetch_google_rss_cap8 (fun _ => some 0)
    [{ title := "T", source := none, published := "d" }] _ rfl

/-- C3 counterexample: one unparseable published-date string makes the whole
fetch call fail; the successfully parsed entry is not returned. -/
theorem fetch_single_bad_date_fails_whole_call :
    fetch_google_rss (fun d => if d = "bad" then none else some 0)
      [{ title := "Good", source := some "S", published := "2024" },
       { title := "Ugly", source := some "S", published := "bad" }] = Except.error "bad"
    ∧ fetch_google_rss (fun d => if d = "bad" then none else some 0)
      [{ title := "Good", source := some "S", published := "2024" },
       { title := "Ugly", source := some "S", published := "bad" }] ≠
        Except.ok [{ title := "Good", source := "S", published := 0 }] := by
  refine ⟨rfl, ?_⟩
  intro h
  exact Except.noConfusion h

/-- C3 (amended): if the published-date of any entry among the first 8 fails
to parse, the whole fetch call fails (no partial result); when every one of
the first 8 entries parses, the call returns all of them. -/
theorem fetch_parse_failure_aborts (parse : String → Option Int) (entries : List RawEntry) :
    ((∃ e ∈ entries.take 8, parse e.published = none) →
      ∃ msg, fetch_google_rss parse entries = .error msg)
    ∧ ((∀ e ∈ entries.take 8, (parse e.published).isSome) →
      ∃ l, fetch_google_rss parse entries = .ok l ∧ l.length = (entries.take 8).length) :=
  ⟨fun h => mapParse_error_of_bad parse (entries.take 8) h,
   fun h => mapParse_ok_of_good parse (entries.take 8) h⟩

/-- Witness for the amended C3 at a concrete input. -/
theorem fetch_parse_failure_aborts_witness :
    ∃ msg, fetch_google_rss (fun d => if d = "bad" then none else some 0)
      [{ title := "Good", source := some "S", published := "2024" },
       { title := "Ugly", source := some "S", published := "bad" }] = Except.error msg :=
  (fetch_parse_failure_aborts (fun d => if d = "bad" then none else some 0)
      [{ title := "Good", source := some "S", published := "2024" },
       { title := "Ugly", source := some "S", published := "bad" }]).1
    ⟨{ title := "Ugly", source := some "S", published := "bad" }, by decide, by decide⟩

/-! ### Summarizer lemmas (C5, C6) -/

theorem accumChunks_acc_prefix (cs : List String) :
    ∀ acc x : String, x ∈ accumChunks acc cs → ∃ t, x = acc ++ t := by
  induction cs with
  | nil => intro acc x hx; simp [accumChunks] at hx
  | cons c cs ih =>
    intro acc x hx
    by_cases hc : c = ""
    · rw [show accumChunks acc (c :: cs) = accumChunks acc cs from by
        simp [accumChunks, hc]] at hx
      exact ih acc x hx
    · rw [show accumChunks acc (c :: cs) = (acc ++ c) :: accumChunks (acc ++ c) cs from by
        simp [accumChunks, hc]] at hx
      rcases List.mem_cons.mp hx with rfl | hx
      · exact ⟨c, rfl⟩
      · obtain ⟨t, ht⟩ := ih (acc ++ c) x hx
        exact ⟨c ++ t, by rw [ht, String.append_assoc]⟩

theorem accumChunks_chain (cs : List String) :
    ∀ acc : String, List.Chain' (fun a b => ∃ t, b = a ++ t) (accumChunks acc cs) := by
  induction cs with
  | nil => intro acc; simp [accumChunks]
  | cons c cs ih =>
    intro acc
    by_cases hc : c = ""
    · rw [show accumChunks acc (c :: cs) = accumChunks acc cs from by
        simp [accumChunks, hc]]
      exact ih acc
    · rw [show accumChunks acc (c :: cs) = (acc ++ c) :: accumChunks (acc ++ c) cs from by
        simp [accumChunks, hc]]
      rw [List.chain'_cons']
      refine ⟨?_, ih (acc ++ c)⟩
      intro b hb
      exact accumChunks_acc_prefix cs (acc ++ c) b (List.mem_of_mem_head? hb)

/-- C5: on a successful stream over a non-empty topic mapping, every text
`summarize` yields extends the previously yielded text — each element is the
full running accumulator, never a bare delta. -/
theorem summarize_prefix_monotone (s : GenStream) (allData : List (String × List NewsItem))
    (hne : allData ≠ []) (herr : s.err = none) :
    List.Chain' (fun a b => ∃ t, b = a ++ t) (summarize s allData) := by
  unfold summarize
  rw [if_neg (by simp [List.isEmpty_iff, hne]), herr]
  simpa using accumChunks_chain s.chunks ""

/-- Witness for C5 at a concrete input. -/
theorem summarize_prefix_monotone_witness :
    List.Chain' (fun a b => ∃ t, b = a ++ t)
      (summarize { chunks := ["a", "b"], err := none } [("T", [])]) :=
  summarize_prefix_monotone { chunks := ["a", "b"], err := none } [("T", [])]
    (by decide) rfl

/-- C6 counterexample: when the backend fails mid-stream (after one chunk
was already yielded), `summarize` yields two items, not exactly one. -/
theorem summarize_midstream_not_single :
    summarize { chunks := ["a"], err := some "boom" } [("T", [])] = ["a", "❌ Error: boom"]
    ∧ (summarize { chunks := ["a"], err := some "boom" } [("T", [])]).length ≠ 1 :=
  ⟨rfl, by decide⟩

/-- C6 (amended): on any backend failure `summarize` yields the distinctly
prefixed error message as the final item of the sequence and then ends
(no retry); it is the sole item when the failure happens before any text
chunk was received. -/
theorem summarize_error_terminal (s : GenStream) (allData : List (String × List NewsItem))
    (e : String) (hne : allData ≠ []) (herr : s.err = some e) :
    summarize s allData = accumChunks "" s.chunks ++ ["❌ Error: " ++ e]
    ∧ (summarize s allData).getLast? = some ("❌ Error: " ++ e)
    ∧ (s.chunks = [] → summarize s allData = ["❌ Error: " ++ e]) := by
  have hmain : summarize s allData = accumChunks "" s.chunks ++ ["❌ Error: " ++ e] := by
    unfold summarize
    rw [if_neg (by simp [List.isEmpty_iff, hne]), herr]
  refine ⟨hmain, ?_, ?_⟩
  · rw [hmain]
    exact List.getLast?_concat _
  · intro h
    rw [hmain, h]
    rfl

/-- Witness for the amended C6 at a concrete input: immediate failure
yields exactly the error message. -/
theorem summarize_error_terminal_witness :
    summarize { chunks := [], err := some "quota" } [("T", [])] = ["❌ Error: quota"] :=
  (summarize_error_terminal { chunks := [], err := some "quota" } [("T", [])] "quota"
    (by decide) rfl).2.2 rfl

/-! ### Orchestrator lemmas -/

theorem fetchTrace_ok (env : Env) :
    ∀ topics : List String, (∀ t ∈ topics, ∃ l, env.fetch t = .ok l) →
      fetchTrace env topics = (topics, none) := by
  intro topics
  induction topics with
  | nil => intro _; rfl
  | cons topic rest ih =>
    intro hok
    obtain ⟨raw, hraw⟩ := hok topic (List.mem_cons_self _ _)
    simp only [fetchTrace, hraw]
    rw [ih (fun t ht => hok t (List.mem_cons_of_mem _ ht))]

theorem fetchTrace_abort (env : Env) :
    ∀ topics : List String, (∃ t ∈ topics, ∃ msg, env.fetch t = .error msg) →
      ∃ pre t post msg,
        topics = pre ++ t :: post
        ∧ (∀ u ∈ pre, ∃ l, env.fetch u = .ok l)
        ∧ env.fetch t = .error msg
        ∧ fetchTrace env topics = (pre ++ [t], some msg) := by
  intro topics
  induction topics with
  | nil => rintro ⟨t, ht, -⟩; cases ht
  | cons topic rest ih =>
    intro hex
    cases hf : env.fetch topic with
    | error msg =>
      refine ⟨[], topic, rest, msg, rfl, by simp, hf, ?_⟩
      simp only [fetchTrace, hf]
      rfl
    | ok raw =>
      have hex2 : ∃ t ∈ rest, ∃ msg, env.fetch t = .error msg := by
        rcases hex with ⟨t, ht, msg, hmsg⟩
        rcases List.mem_cons.mp ht with rfl | ht2
        · rw [hf] at hmsg; cases hmsg
        · exact ⟨t, ht2, msg, hmsg⟩
      obtain ⟨pre, t, post, msg, hsplit, hpre, hferr, htr⟩ := ih hex2
      refine ⟨topic :: pre, t, post, msg, by rw [hsplit, List.cons_append], ?_, hferr, ?_⟩
      · intro u hu
        rcases List.mem_cons.mp hu with rfl | hu2
        · exact ⟨raw, hf⟩
        · exact hpre u hu2
      · simp only [fetchTrace, hf, htr]
        simp [List.cons_append]

theorem fetchLoop_fetched (env : Env) :
    ∀ (topics : List String) (st : LoopState),
      (fetchLoop env topics st).fetched = st.fetched ++ (fetchTrace env topics).1 := by
  intro topics
  induction topics with
  | nil => intro st; simp [fetchLoop, fetchTrace]
  | cons topic rest ih =>
    intro st
    cases hf : env.fetch topic with
    | error e => simp [fetchLoop, fetchTrace, hf]
    | ok raw =>
      simp only [fetchLoop, fetchTrace, hf]
      rw [ih _]
      simp

theorem fetchLoop_aborted (env : Env) :
    ∀ (topics : List String) (st : LoopState), st.aborted = none →
      (fetchLoop env topics st).aborted = (fetchTrace env topics).2 := by
  intro topics
  induction topics with
  | nil => intro st h; simpa [fetchLoop, fetchTrace] using h
  | cons topic rest ih =>
    intro st h
    cases hf : env.fetch topic with
    | error e => simp [fetchLoop, fetchTrace, hf]
    | ok raw =>
      simp only [fetchLoop, fetchTrace, hf]
      exact ih _ h

theorem fetchLoop_snaps_len (env : Env) :
    ∀ (topics : List String) (st : LoopState),
      (fetchLoop env topics st).snaps.length
        = st.snaps.length + (fetchTrace env topics).1.length := by
  intro topics
  induction topics with
  | nil => intro st; simp [fetchLoop, fetchTrace]
  | cons topic rest ih =>
    intro st
    cases hf : env.fetch topic with
    | error e => simp [fetchLoop, fetchTrace, hf]
    | ok raw =>
      simp only [fetchLoop, fetchTrace, hf]
      rw [ih _]
      simp
      omega

theorem fetchLoop_snaps_tables (env : Env) :
    ∀ (topics : List String) (st : LoopState),
      ∀ s ∈ (fetchLoop env topics st).snaps, s ∈ st.snaps ∨ s.table = [] := by
  intro topics
  induction topics with
  | nil => intro st s hs; exact Or.inl hs
  | cons topic rest ih =>
    intro st s hs
    cases hf : env.fetch topic with
    | error e =>
      simp only [fetchLoop, hf] at hs
      rcases List.mem_append.mp hs with h | h
      · exact Or.inl h
      · right
        rw [List.mem_singleton.mp h]
    | ok raw =>
      simp only [fetchLoop, hf] at hs
      rcases ih _ s hs with h | h
      · rcases List.mem_append.mp h with h2 | h2
        · exact Or.inl h2
        · right
          rw [List.mem_singleton.mp h2]
      · exact Or.inr h

theorem fetchLoop_table (env : Env) :
    ∀ (topics : List String) (st : LoopState),
      (∀ t ∈ topics, ∃ l, env.fetch t = .ok l) →
      (fetchLoop env topics st).table = st.table ++ aggregateRows env topics := by
  intro topics
  induction topics with
  | nil => intro st _; simp [fetchLoop, aggregateRows]
  | cons topic rest ih =>
    intro st hok
    obtain ⟨raw, hraw⟩ := hok topic (List.mem_cons_self _ _)
    simp only [fetchLoop, hraw]
    rw [ih _ (fun t ht => hok t (List.mem_cons_of_mem _ ht))]
    simp only [aggregateRows, List.flatMap_cons]
    rw [show fetchItems env topic = raw from by simp [fetchItems, hraw]]
    simp [aggregateRows, List.append_assoc]

theorem fetchLoop_allData (env : Env) :
    ∀ (topics : List String) (st : LoopState),
      (∀ t ∈ topics, ∃ l, env.fetch t = .ok l) →
      topics.Nodup →
      (∀ t ∈ topics, ∀ p ∈ st.allData, p.1 ≠ t) →
      (fetchLoop env topics st).allData
        = st.allData ++ topics.map (fun t => (t, deduplicate (fetchItems env t))) := by
  intro topics
  induction topics with
  | nil => intro st _ _ _; simp [fetchLoop]
  | cons topic rest ih =>
    intro st hok hnd hfresh
    obtain ⟨raw, hraw⟩ := hok topic (List.mem_cons_self _ _)
    have hins : dictInsert st.allData topic (deduplicate raw)
        = st.allData ++ [(topic, deduplicate raw)] := by
      unfold dictInsert
      rw [if_neg]
      intro hany
      obtain ⟨p, hp, hpk⟩ := List.any_eq_true.mp hany
      exact hfresh topic (List.mem_cons_self _ _) p hp (by simpa using hpk)
    simp only [fetchLoop, hraw]
    rw [ih _ (fun t ht => hok t (List.mem_cons_of_mem _ ht)) hnd.of_cons ?_]
    · rw [show ({ st with
          snaps := st.snaps ++ [{ summary := none
                                  log := st.logs ++ ["🔍 Fetching RSS for: " ++ topic]
                                  table := [], tab := none }]
          logs := st.logs ++ ["🔍 Fetching RSS for: " ++ topic]
          fetched := st.fetched ++ [topic]
          allData := dictInsert st.allData topic (deduplicate raw)
          table := st.table ++ (deduplicate raw).map (mkRow topic) } : LoopState).allData
        = dictInsert st.allData topic (deduplicate raw) from rfl]
      rw [hins]
      rw [show raw = fetchItems env topic from by simp [fetchItems, hraw]]
      simp [List.append_assoc]
    · intro t ht p hp
      rw [show ({ st with
          snaps := st.snaps ++ [{ summary := none
                                  log := st.logs ++ ["🔍 Fetching RSS for: " ++ topic]
                                  table := [], tab := none }]
          logs := st.logs ++ ["🔍 Fetching RSS for: " ++ topic]
          fetched := st.fetched ++ [topic]
          allData := dictInsert st.allData topic (deduplicate raw)
          table := st.table ++ (deduplicate raw).map (mkRow topic) } : LoopState).allData
        = dictInsert st.allData topic (deduplicate raw) from rfl] at hp
      rw [hins] at hp
      rcases List.mem_append.mp hp with hp1 | hp2
      · exact hfresh t (List.mem_cons_of_mem _ ht) p hp1
      · rw [List.mem_singleton.mp hp2]
        intro heq
        have htop : topic = t := heq
        exact (List.nodup_cons.mp hnd).1 (htop ▸ ht)

theorem summaryYields_tables (df : List AggRow) :
    ∀ (texts logs0 : List String), ∀ s ∈ (summaryYields df logs0 texts).1, s.table = df := by
  intro texts
  induction texts with
  | nil => intro logs0 s hs; simp [summaryYields] at hs
  | cons c cs ih =>
    intro logs0 s hs
    simp only [summaryYields] at hs
    rcases List.mem_cons.mp hs with rfl | hs2
    · rfl
    · exact ih _ s hs2

theorem aggregateRows_topic_mem (env : Env) :
    ∀ (topics : List String) (r : AggRow), r ∈ aggregateRows env topics → r.topic ∈ topics := by
  intro topics r hr
  obtain ⟨t, ht, hrt⟩ := List.mem_flatMap.mp hr
  obtain ⟨itm, -, hmk⟩ := List.mem_map.mp hrt
  rw [← hmk]
  exact ht

theorem aggregateRows_filter_count (env : Env) :
    ∀ topics : List String, topics.Nodup → ∀ t ∈ topics,
      ((aggregateRows env topics).filter (fun r => r.topic == t)).length
        = (deduplicate (fetchItems env t)).length := by
  intro topics
  induction topics with
  | nil => intro _ t ht; cases ht
  | cons u rest ih =>
    intro hnd t ht
    have hsplit : aggregateRows env (u :: rest)
        = (deduplicate (fetchItems env u)).map (mkRow u) ++ aggregateRows env rest := by
      simp [aggregateRows]
    rw [hsplit, List.filter_append, List.length_append]
    rcases List.mem_cons.mp ht with rfl | ht2
    · rw [List.filter_eq_self.mpr ?_, List.length_map]
      · rw [show ((aggregateRows env rest).filter (fun r => r.topic == t)).length = 0 from ?_]
        · omega
        · rw [List.length_eq_zero, List.filter_eq_nil_iff]
          intro r hr hrt
          have := aggregateRows_topic_mem env rest r hr
          rw [show r.topic = t from by simpa using hrt] at this
          exact (List.nodup_cons.mp hnd).1 this
      · intro r hr
        obtain ⟨itm, -, hmk⟩ := List.mem_map.mp hr
        rw [← hmk]
        simp [mkRow]
    · rw [show ((List.map (mkRow u) (deduplicate (fetchItems env u))).filter
          (fun r => r.topic == t)).length = 0 from ?_]
      · rw [ih hnd.of_cons t ht2]
        omega
      · rw [List.length_eq_zero, List.filter_eq_nil_iff]
        intro r hr hrt
        obtain ⟨itm, -, hmk⟩ := List.mem_map.mp hr
        have : r.topic = u := by rw [← hmk]; rfl
        rw [this] at hrt
        have : u = t := by simpa using hrt
        exact (List.nodup_cons.mp hnd).1 (this ▸ ht2)

/-- C4: if fetching fails for any validated topic, the whole run aborts as
an uncaught fetch error rather than continuing with the remaining topics:
the summarizer is never invoked, every yielded snapshot's table is empty
(in particular the run with a single unreachable topic ends failed with an
empty table), and fetching stops at the first failing topic. -/
theorem fetch_error_aborts_run (env : Env) (t1 t2 t3 : String)
    (h : ∃ t ∈ validTopics t1 t2 t3, ∃ msg, env.fetch t = .error msg) :
    (process_all env t1 t2 t3).summarized = none
    ∧ (∀ s ∈ (process_all env t1 t2 t3).snaps, s.table = [])
    ∧ ∃ pre t post msg,
        validTopics t1 t2 t3 = pre ++ t :: post
        ∧ (∀ u ∈ pre, ∃ l, env.fetch u = .ok l)
        ∧ env.fetch t = .error msg
        ∧ (process_all env t1 t2 t3).aborted = some msg
        ∧ (process_all env t1 t2 t3).fetched = pre ++ [t] := by
  obtain ⟨pre, t, post, msg, hsplit, hpre, hferr, htr⟩ := fetchTrace_abort env _ h
  have hne : validTopics t1 t2 t3 ≠ [] := by
    rw [hsplit]; simp
  have habortF : (fetchLoop env (validTopics t1 t2 t3)
      (initState (validTopics t1 t2 t3))).aborted = some msg := by
    rw [fetchLoop_aborted env _ _ rfl, htr]
  have hrun : process_all env t1 t2 t3 =
      { snaps := (fetchLoop env (validTopics t1 t2 t3)
                    (initState (validTopics t1 t2 t3))).snaps
        fetched := (fetchLoop env (validTopics t1 t2 t3)
                    (initState (validTopics t1 t2 t3))).fetched
        summarized := none
        aborted := some msg } := by
    simp only [process_all]
    rw [if_neg (by simp [List.isEmpty_iff, hne])]
    rw [habortF]
  rw [hrun]
  refine ⟨rfl, ?_, pre, t, post, msg, hsplit, hpre, hferr, rfl, ?_⟩
  · intro s hs
    rcases fetchLoop_snaps_tables env _ _ s hs with h1 | h1
    · simp only [initState] at h1
      rw [List.mem_singleton.mp h1]
    · exact h1
  · rw [fetchLoop_fetched, htr]
    simp [initState]

/-- Witness for C4: with the only topic's fetch failing, the summarizer is
never invoked. -/
theorem fetch_error_aborts_run_witness :
    (process_all envBad "A" "" "").summarized = none :=
  (fetch_error_aborts_run envBad "A" "" "" ⟨"A", by decide, "unreachable", rfl⟩).1

/-- C2 counterexample: in a run over topics "A" and "B" where topic "A"
produced a row, every snapshot yielded before topic "B" is processed (the
initializing snapshot and both per-topic fetching snapshots, i.e. the first
three of the five) carries an empty table: topic "A"'s rows are visible in
none of them, contradicting immediate (incremental) extension. -/
theorem rows_not_incremental_counterexample :
    ((process_all envOk "A" "B" "").snaps.take 3).map Snap.table = [[], [], []]
    ∧ (deduplicate [itemA]).map (mkRow "A") = [mkRow "A" itemA]
    ∧ (process_all envOk "A" "B" "").snaps.length = 5 := by
  decide

/-- C2 (amended): the aggregate table is batched, not incremental: in a run
whose fetches all succeed, every snapshot yielded through the fetching
stage (the first `1 + topic count`) carries an empty table, and the rows
appear only from the summarizing stage on, where every snapshot carries
the complete final table. -/
theorem tables_batched_not_incremental (env : Env) (t1 t2 t3 : String)
    (hok : ∀ t ∈ validTopics t1 t2 t3, ∃ l, env.fetch t = .ok l)
    (hne : validTopics t1 t2 t3 ≠ []) :
    (∀ s ∈ (process_all env t1 t2 t3).snaps.take (1 + (validTopics t1 t2 t3).length),
        s.table = [])
    ∧ (∀ s ∈ (process_all env t1 t2 t3).snaps.drop (1 + (validTopics t1 t2 t3).length),
        s.table = aggregateRows env (validTopics t1 t2 t3))
    ∧ (process_all env t1 t2 t3).snaps.drop (1 + (validTopics t1 t2 t3).length) ≠ [] := by
  have htr := fetchTrace_ok env _ hok
  have habortF : (fetchLoop env (validTopics t1 t2 t3)
      (initState (validTopics t1 t2 t3))).aborted = none := by
    rw [fetchLoop_aborted env _ _ rfl, htr]
  have hlen : (fetchLoop env (validTopics t1 t2 t3)
      (initState (validTopics t1 t2 t3))).snaps.length
      = 1 + (validTopics t1 t2 t3).length := by
    rw [fetchLoop_snaps_len, htr]
    simp [initState]
  have htab : (fetchLoop env (validTopics t1 t2 t3)
      (initState (validTopics t1 t2 t3))).table
      = aggregateRows env (validTopics t1 t2 t3) := by
    rw [fetchLoop_table env _ _ hok]
    simp [initState]
  simp only [process_all]
  rw [if_neg (by simp [List.isEmpty_iff, hne])]
  rw [habortF]
  simp only [List.append_assoc]
  refine ⟨?_, ?_, ?_⟩
  · rw [List.take_left' hlen]
    intro s hs
    rcases fetchLoop_snaps_tables env _ _ s hs with h1 | h1
    · simp only [initState] at h1
      rw [List.mem_singleton.mp h1]
    · exact h1
  · rw [List.drop_left' hlen]
    intro s hs
    rcases List.mem_append.mp hs with h1 | h1
    · rw [summaryYields_tables _ _ _ s h1, htab]
    · rw [List.mem_singleton.mp h1, htab]
  · rw [List.drop_left' hlen]
    simp

/-- Witness for the amended C2: the post-fetching snapshots exist. -/
theorem tables_batched_not_incremental_witness :
    (process_all envOk "A" "B" "").snaps.drop
      (1 + (validTopics "A" "B" "").length) ≠ [] :=
  (tables_batched_not_incremental envOk "A" "B" ""
    (fun _ _ => ⟨[itemA], rfl⟩) (by decide)).2.2

/-- C8: validation keeps exactly the supplied topics that are non-empty
after stripping (the kept strings are the originals); if none survives,
the run is a single terminal snapshot carrying a user-facing message, and
neither fetching nor summarization is ever attempted. -/
theorem validation_gate (env : Env) (t1 t2 t3 : String) :
    (∀ t, t ∈ validTopics t1 t2 t3 ↔ t ∈ [t1, t2, t3] ∧ pyStrip t ≠ "")
    ∧ (validTopics t1 t2 t3 = [] →
        process_all env t1 t2 t3 =
          { snaps := [{ summary := some "⚠️ Please enter at least one topic."
                        log := ["Aborted: No topics entered."]
                        table := []
                        tab := some 0 }]
            fetched := []
            summarized := none
            aborted := none }) := by
  constructor
  · intro t
    simp [validTopics, List.mem_filter, bne_iff_ne]
  · intro hempty
    simp only [process_all]
    rw [if_pos (by simp [hempty])]

/-- Witness for C8: blank inputs produce exactly the terminal snapshot. -/
theorem validation_gate_witness :
    process_all envOk " " "" "" =
      { snaps := [{ summary := some "⚠️ Please enter at least one topic."
                    log := ["Aborted: No topics entered."]
                    table := []
                    tab := some 0 }]
        fetched := []
        summarized := none
        aborted := none } :=
  (validation_gate envOk " " "" "").2 (by decide)

/-- C9 counterexample: when the same topic text is validated twice
(topics "A", "A", ""), the final table carries two rows for topic "A"
while that topic's final TopicResult has a single item — the per-topic
row count does not equal the TopicResult length, and the rows are not
grouped as one block per distinct topic. -/
theorem dup_topic_rowcount_counterexample :
    ((process_all envOk "A" "A" "").snaps.getLast?).map
        (fun s => (s.table.filter (fun r => r.topic == "A")).length) = some 2
    ∧ (process_all envOk "A" "A" "").summarized = some [("A", [itemA])]
    ∧ ([itemA] : List NewsItem).length = 1 := by
  decide

/-- C9 (amended): in a successful run whose validated topics are pairwise
distinct, the final mapping holds each topic's deduplicated result, the
final snapshot's table is the topics' row blocks concatenated in validated
order (each block in its topic's deduplicated recency order), and each
topic's row count equals its final TopicResult length. -/
theorem final_table_grouped (env : Env) (t1 t2 t3 : String)
    (hok : ∀ t ∈ validTopics t1 t2 t3, ∃ l, env.fetch t = .ok l)
    (hne : validTopics t1 t2 t3 ≠ [])
    (hnd : (validTopics t1 t2 t3).Nodup) :
    (process_all env t1 t2 t3).summarized
      = some ((validTopics t1 t2 t3).map (fun t => (t, deduplicate (fetchItems env t))))
    ∧ ((process_all env t1 t2 t3).snaps.getLast?).map Snap.table
      = some (aggregateRows env (validTopics t1 t2 t3))
    ∧ ∀ t ∈ validTopics t1 t2 t3,
        ((aggregateRows env (validTopics t1 t2 t3)).filter (fun r => r.topic == t)).length
          = (deduplicate (fetchItems env t)).length := by
  have htr := fetchTrace_ok env _ hok
  have habortF : (fetchLoop env (validTopics t1 t2 t3)
      (initState (validTopics t1 t2 t3))).aborted = none := by
    rw [fetchLoop_aborted env _ _ rfl, htr]
  have hdata : (fetchLoop env (validTopics t1 t2 t3)
      (initState (validTopics t1 t2 t3))).allData
      = (validTopics t1 t2 t3).map (fun t => (t, deduplicate (fetchItems env t))) := by
    rw [fetchLoop_allData env _ _ hok hnd (by simp [initState])]
    simp [initState]
  have htab : (fetchLoop env (validTopics t1 t2 t3)
      (initState (validTopics t1 t2 t3))).table
      = aggregateRows env (validTopics t1 t2 t3) := by
    rw [fetchLoop_table env _ _ hok]
    simp [initState]
  simp only [process_all]
  rw [if_neg (by simp [List.isEmpty_iff, hne])]
  rw [habortF]
  refine ⟨by rw [hdata], ?_, fun t ht => aggregateRows_filter_count env _ hnd t ht⟩
  rw [List.getLast?_concat]
  simp [htab]

/-- Witness for the amended C9 at a concrete two-topic run. -/
theorem final_table_grouped_witness :
    (process_all envOk "A" "B" "").summarized
      = some ((validTopics "A" "B" "").map (fun t => (t, deduplicate (fetchItems envOk t)))) :=
  (final_table_grouped envOk "A" "B" "" (fun _ _ => ⟨[itemA], rfl⟩)
    (by decide) (by decide)).1
